import Mathlib

/-
Verification of the image post-processing core of the background-remover
application (src/background_remover.py) against its design document.

The embedding below translates the Python source into Lean definitions:

* Python float arithmetic (the `/` true division of ints, int-by-float
  multiplication, `min`, and `int(...)` truncation in calculate_target_size)
  is modelled exactly as IEEE-754 binary64 round-to-nearest-even on positive
  values, represented as a significand/exponent pair of unbounded exponent
  (exact for every magnitude that can arise from decoded image dimensions,
  which are far below the binary64 overflow threshold).  CPython performs
  correctly rounded int/int true division, correctly rounded int-to-float
  conversion, and hardware binary64 multiplication, all round-to-nearest-even.
* Pillow images are rasters with width, height, pixel mode and an optional
  EXIF orientation tag.  Pixels are a function from coordinates to an
  (r, g, b, a) quadruple.
* Failure (ZeroDivisionError, model-inference errors, decode errors, save
  errors, archive errors) is modelled with Option / explicit flags.
-/

set_option maxRecDepth 40000

namespace BgRemover

/-! ## Binary64 arithmetic model -/

/-- One binary-descent step for the base-2 logarithm: when 2 ^ k still fits
into the running value, shift it down by k and add k to the accumulator. -/
def log2Step (k : ℕ) (p : ℕ × ℕ) : ℕ × ℕ :=
  if 2 ^ k ≤ p.1 then (p.1 / 2 ^ k, p.2 + k) else p

/-- Floor of log2 n for 1 ≤ n < 2 to the 128 (and 0 for n = 0), by binary
descent over the exponents 64, 32, ..., 1.  Seven arithmetic steps keep
every use cheap for the kernel; every quantity this model ever takes a
logarithm of (image dimensions, the caps 1400 and 2400, 53-bit significands
and their products) is far below the bound. -/
def natLog2 (n : ℕ) : ℕ :=
  (log2Step 1 (log2Step 2 (log2Step 4 (log2Step 8
    (log2Step 16 (log2Step 32 (log2Step 64 (n, 0)))))))).2

/-- Round n / d to the nearest integer, ties to even (IEEE-754 default). -/
def rne53 (n d : ℕ) : ℕ :=
  let q := n / d
  let r := n % d
  if 2 * r < d then q
  else if d < 2 * r then q + 1
  else if q % 2 = 0 then q else q + 1

/-- Floor of log2 (a / b) for positive naturals a, b, as an integer. -/
def floorLog2 (a b : ℕ) : ℤ :=
  let g : ℤ := (natLog2 a : ℤ) - (natLog2 b : ℤ)
  if b * 2 ^ g.toNat ≤ a * 2 ^ (-g).toNat then g else g - 1

/-- A nonnegative binary64 value: significand times 2 to the exponent.
Normalised values keep the significand in [2^52, 2^53]. -/
structure FP where
  m : ℕ
  e : ℤ
deriving DecidableEq

/-- Correctly rounded (nearest, ties to even) true division a / b of naturals,
as CPython computes int / int.  Division by zero is unreachable here: the
caller tests for it first (Python raises ZeroDivisionError). -/
def fdiv (a b : ℕ) : FP :=
  if a = 0 ∨ b = 0 then ⟨0, 0⟩
  else
    let k := floorLog2 a b
    let e := k - 52
    if 0 ≤ e then ⟨rne53 a (b * 2 ^ e.toNat), e⟩
    else ⟨rne53 (a * 2 ^ (-e).toNat) b, e⟩

/-- Correctly rounded int-to-binary64 conversion (CPython PyLong_AsDouble). -/
def fofNat (a : ℕ) : FP := fdiv a 1

/-- Binary64 multiplication: exact product, rounded to 53 significant bits. -/
def fmul (x y : FP) : FP :=
  let p := x.m * y.m
  if p = 0 then ⟨0, 0⟩
  else
    let s := natLog2 p - 52
    ⟨rne53 p (2 ^ s), x.e + y.e + (s : ℤ)⟩

/-- Value comparison of two nonnegative binary64 numbers. -/
def FP.le (x y : FP) : Bool :=
  if x.e ≤ y.e then decide (x.m ≤ y.m * 2 ^ (y.e - x.e).toNat)
  else decide (x.m * 2 ^ (x.e - y.e).toNat ≤ y.m)

/-- Truncation toward zero of a nonnegative binary64 value, Python int(x). -/
def FP.floorNat (x : FP) : ℕ :=
  if 0 ≤ x.e then x.m * 2 ^ x.e.toNat else x.m / 2 ^ (-x.e).toNat

/-! ## calculate_target_size (src/background_remover.py lines 34-53) -/

/-- Translation of calculate_target_size.  Python evaluates
1400 / orig_width and 2400 / orig_height in binary64, raises
ZeroDivisionError (modelled as none) when a dimension is 0, takes the float
min, multiplies each int dimension by the float scale in binary64, truncates
with int(...), and clamps with min against the caps.  Python min(a, b)
returns a when a is less than or equal to b. -/
def calculate_target_size (origWidth origHeight : ℕ) : Option (ℕ × ℕ) :=
  if origWidth = 0 ∨ origHeight = 0 then none
  else
    let wr := fdiv 1400 origWidth
    let hr := fdiv 2400 origHeight
    let scale := if wr.le hr then wr else hr
    let newWidth := (fmul (fofNat origWidth) scale).floorNat
    let newHeight := (fmul (fofNat origHeight) scale).floorNat
    some (min newWidth 1400, min newHeight 2400)

/-- Modelled from the spec: the scaling formula of section 4.1 read over exact
rational arithmetic.  With wRatio = 1400/w and hRatio = 2400/h and
scale = min wRatio hRatio, the results floor (w * scale) and floor (h * scale)
are written with exact natural division: when 1400 * h ≤ 2400 * w (that is,
wRatio ≤ hRatio) the floor of w * (1400 / w) is exactly 1400 and the floor of
h * (1400 / w) is (h * 1400) / w, and symmetrically otherwise.  Each component
is then clamped to the caps, as the spec states. -/
def calcTargetSizeRat (w h : ℕ) : Option (ℕ × ℕ) :=
  if w = 0 ∨ h = 0 then none
  else if 1400 * h ≤ 2400 * w then
    some (min 1400 1400, min ((h * 1400) / w) 2400)
  else
    some (min ((w * 2400) / h) 1400, min 2400 2400)

/-! ## Image model (Pillow rasters) -/

/-- One pixel: red, green, blue and alpha channel values.  In RGB mode the
stored alpha value carries no meaning (the mode has no alpha band). -/
structure Pix where
  r : ℕ
  g : ℕ
  b : ℕ
  a : ℕ
deriving DecidableEq

/-- Pixel modes the pipeline can meet: opaque RGB and RGBA with alpha. -/
inductive Mode where
  | RGB : Mode
  | RGBA : Mode
deriving DecidableEq

/-- An in-memory raster with width, height, pixel mode, pixel data and the
optional EXIF orientation tag (values 1 to 8). -/
structure Image where
  width : ℕ
  height : ℕ
  mode : Mode
  px : ℕ → ℕ → Pix
  exifOrient : Option ℕ

/-- The alpha value of the pixel at (x, y): images without an alpha band are
fully opaque, so their alpha reads 255. -/
def Image.alphaAt (img : Image) (x y : ℕ) : ℕ :=
  match img.mode with
  | Mode.RGBA => (img.px x y).a
  | Mode.RGB => 255

/-- How Image.getbbox decides that a pixel counts as content: for RGBA the
default alpha_only behaviour of Pillow 10 looks only at the alpha band
(nonzero alpha); for modes without alpha every nonzero channel value counts. -/
def Image.bandNonzero (img : Image) (x y : ℕ) : Bool :=
  match img.mode with
  | Mode.RGBA => (img.px x y).a != 0
  | Mode.RGB => ((img.px x y).r != 0) || ((img.px x y).g != 0) || ((img.px x y).b != 0)

/-- Does column x hold a content pixel? -/
def Image.colHas (img : Image) (x : ℕ) : Bool :=
  (List.range img.height).any fun y => img.bandNonzero x y

/-- Does row y hold a content pixel? -/
def Image.rowHas (img : Image) (y : ℕ) : Bool :=
  (List.range img.width).any fun x => img.bandNonzero x y

/-- Pillow Image.getbbox: smallest box (left, upper, right, lower) containing
every content pixel, with right and lower exclusive; none when the image has
no content pixel.  The filtered coordinate lists are ascending, so their head
is the minimum and their last element the maximum. -/
def Image.getbbox (img : Image) : Option (ℕ × ℕ × ℕ × ℕ) :=
  match (List.range img.width).filter img.colHas,
        (List.range img.height).filter img.rowHas with
  | x0 :: xrest, y0 :: yrest =>
    some (x0, y0, (x0 :: xrest).getLastD 0 + 1, (y0 :: yrest).getLastD 0 + 1)
  | _, _ => none

/-- Pillow Image.crop to a (left, upper, right, lower) box: the result has
size (right - left, lower - upper) and reads its pixels at the translated
coordinates.  Mode and metadata are kept. -/
def Image.crop (img : Image) (box : ℕ × ℕ × ℕ × ℕ) : Image :=
  ⟨box.2.2.1 - box.1, box.2.2.2 - box.2.1, img.mode,
   fun x y => img.px (x + box.1) (y + box.2.1), img.exifOrient⟩

/-! ## Geometry utilities (src/background_remover.py lines 29-63) -/

/-- Translation of trim_transparency: crop to the getbbox box when one
exists, otherwise return the image as is. -/
def trim_transparency (image : Image) : Image :=
  match image.getbbox with
  | some bbox => image.crop bbox
  | none => image

/-- Pillow transpose with Image.ROTATE_270: a quarter turn clockwise; the
new width is the old height and the pixel at (x, y) comes from the old
position (y, oldHeight - 1 - x). -/
def transposeRot270 (img : Image) : Image :=
  ⟨img.height, img.width, img.mode,
   fun x y => img.px y (img.height - 1 - x), img.exifOrient⟩

/-- Pillow transpose with Image.ROTATE_90: a quarter turn counterclockwise. -/
def transposeRot90 (img : Image) : Image :=
  ⟨img.height, img.width, img.mode,
   fun x y => img.px (img.width - 1 - y) x, img.exifOrient⟩

/-- Pillow transpose with Image.ROTATE_180. -/
def transposeRot180 (img : Image) : Image :=
  ⟨img.width, img.height, img.mode,
   fun x y => img.px (img.width - 1 - x) (img.height - 1 - y), img.exifOrient⟩

/-- Pillow transpose with Image.FLIP_LEFT_RIGHT. -/
def flipLR (img : Image) : Image :=
  ⟨img.width, img.height, img.mode,
   fun x y => img.px (img.width - 1 - x) y, img.exifOrient⟩

/-- Pillow transpose with Image.FLIP_TOP_BOTTOM. -/
def flipTB (img : Image) : Image :=
  ⟨img.width, img.height, img.mode,
   fun x y => img.px x (img.height - 1 - y), img.exifOrient⟩

/-- Pillow transpose with Image.TRANSPOSE (reflect over the main diagonal). -/
def transposeMain (img : Image) : Image :=
  ⟨img.height, img.width, img.mode, fun x y => img.px y x, img.exifOrient⟩

/-- Pillow transpose with Image.TRANSVERSE (reflect over the anti diagonal). -/
def transposeTransverse (img : Image) : Image :=
  ⟨img.height, img.width, img.mode,
   fun x y => img.px (img.width - 1 - y) (img.height - 1 - x), img.exifOrient⟩

/-- Drop the EXIF orientation tag (done after applying it). -/
def clearOrient (img : Image) : Image :=
  ⟨img.width, img.height, img.mode, img.px, none⟩

/-- Translation of auto_rotate, that is ImageOps.exif_transpose: apply the
transform the EXIF orientation tag encodes and clear the tag; tag values
outside 2 to 8 (or no tag) leave the image as it is. -/
def auto_rotate (image : Image) : Image :=
  match image.exifOrient with
  | some 2 => clearOrient (flipLR image)
  | some 3 => clearOrient (transposeRot180 image)
  | some 4 => clearOrient (flipTB image)
  | some 5 => clearOrient (transposeMain image)
  | some 6 => clearOrient (transposeRot270 image)
  | some 7 => clearOrient (transposeTransverse image)
  | some 8 => clearOrient (transposeRot90 image)
  | _ => image

/-- Translation of ensure_portrait_mode: rotate by ROTATE_270 when the image
is wider than tall, otherwise keep it. -/
def ensure_portrait_mode (image : Image) : Image :=
  if image.height < image.width then transposeRot270 image else image

/-- Pillow Image.resize to the target size with the LANCZOS filter: the
result has exactly the requested size and keeps the mode.  The LANCZOS
convolution weights play no part in any verified property, so pixel values
are modelled by coordinate scaling; size and mode follow Pillow exactly. -/
def Image.resize (img : Image) (tw th : ℕ) : Image :=
  ⟨tw, th, img.mode,
   fun x y => img.px (x * img.width / tw) (y * img.height / th), img.exifOrient⟩

/-! ## Single-image pipeline (src/background_remover.py lines 65-90) -/

/-- The white pixel used for the output canvas background. -/
def whitePix : Pix := ⟨255, 255, 255, 255⟩

/-- Pillow paste with an 8-bit mask at one pixel: fixed-point blend of source
over destination weighted by the source alpha (integer approximation of the
Pillow blend; the blended values are not load-bearing in any claim). -/
def blendPix (src dst : Pix) : Pix :=
  ⟨(src.r * src.a + dst.r * (255 - src.a)) / 255,
   (src.g * src.a + dst.g * (255 - src.a)) / 255,
   (src.b * src.a + dst.b * (255 - src.a)) / 255, 255⟩

/-- The final compositing step of process_image: a fresh white RGB canvas of
2048 by 2732, with the resized image pasted centered, using its alpha band as
mask when it has one (Python passes mask=None for images without alpha). -/
def pasteCentered (resized : Image) : Image :=
  ⟨2048, 2732, Mode.RGB,
   fun cx cy =>
     let ox := (2048 - resized.width) / 2
     let oy := (2732 - resized.height) / 2
     if ox ≤ cx ∧ cx < ox + resized.width ∧ oy ≤ cy ∧ cy < oy + resized.height then
       match resized.mode with
       | Mode.RGBA => blendPix (resized.px (cx - ox) (cy - oy)) whitePix
       | Mode.RGB =>
         ⟨(resized.px (cx - ox) (cy - oy)).r, (resized.px (cx - ox) (cy - oy)).g,
          (resized.px (cx - ox) (cy - oy)).b, 255⟩
     else whitePix,
   none⟩

/-- Translation of process_image.  The CarveKit capability is an external
parameter (the code calls it on a one-element list and takes the first
result); it may raise, modelled as none, and the error propagates.  A
ZeroDivisionError out of calculate_target_size (zero-sized intermediate
image) propagates the same way. -/
def process_image (carvekit : Image → Option Image) (image : Image) : Option Image :=
  let image_prep := ensure_portrait_mode image
  match carvekit image_prep with
  | none => none
  | some bg_removed =>
    let trimmed := trim_transparency bg_removed
    let rotated := auto_rotate trimmed
    match calculate_target_size rotated.width rotated.height with
    | none => none
    | some (tw, th) => some (pasteCentered (rotated.resize tw th))

/-! ## Batch processor (src/background_remover.py lines 92-133) -/

/-- The environment a batch run interacts with: the CarveKit capability
built by initialize_interface, the image decoder behind Image.open (none is
a decode failure), per-path PNG save success, and whether creating the ZIP
archive succeeds. -/
structure BatchEnv where
  carvekit : Image → Option Image
  decode : String → Option Image
  saveOk : String → Bool
  zipCreateOk : Bool

/-- The name part of a path after the last slash. -/
def afterLastSlash : List Char → List Char
  | [] => []
  | c :: rest =>
    if '/' ∈ rest then afterLastSlash rest
    else if c = '/' then rest else c :: rest

/-- Split a file name at its last dot: some (before, after) when a dot
exists, none otherwise. -/
def splitLastDot : List Char → Option (List Char × List Char)
  | [] => none
  | c :: rest =>
    match splitLastDot rest with
    | some (before, after) => some (c :: before, after)
    | none => if c = '.' then some ([], rest) else none

/-- pathlib Path(p).stem: the final path component without its suffix.  The
suffix starts at the last dot provided that dot is neither the first nor the
last character of the name (so dotfiles and names with a trailing dot keep
everything). -/
def pathStem (path : String) : String :=
  let name := afterLastSlash path.toList
  match splitLastDot name with
  | some (before, after) => if before = [] ∨ after = [] then ⟨name⟩ else ⟨before⟩
  | none => ⟨name⟩

/-- One loop iteration of _process_files: decode the input, run the
pipeline, save the PNG into the staging directory.  Returns the staged file
name on success; any failure is caught, logged and skipped (none). -/
def processOne (env : BatchEnv) (path : String) : Option String :=
  match env.decode path with
  | none => none
  | some img =>
    match process_image env.carvekit img with
    | none => none
    | some _ =>
      let filename := pathStem path ++ "_processed.png"
      if env.saveOk filename then some filename else none

/-- Writing a file into the staging directory: a second save under the same
name overwrites the first, so the directory holds one file per name. -/
def stageFile (dir : List String) (name : String) : List String :=
  if name ∈ dir then dir else dir ++ [name]

/-- The per-item loop of _process_files from a given staging-directory
state: process each path in order, staging the produced file on success and
leaving the directory untouched on a skipped failure. -/
def stageLoop (env : BatchEnv) (acc : List String) (inputPaths : List String) : List String :=
  inputPaths.foldl
    (fun dir p =>
      match processOne env p with
      | some name => stageFile dir name
      | none => dir)
    acc

/-- The staging directory contents after the per-item loop of
_process_files ran over every input path in order, starting empty. -/
def stagedFiles (env : BatchEnv) (inputPaths : List String) : List String :=
  stageLoop env [] inputPaths

/-- What a batch invocation leaves behind: whether an exception reached the
caller, and the ZIP archive on disk with its entry names (none when the
partially written archive was deleted). -/
structure BatchResult where
  raised : Bool
  archive : Option (List String)
deriving DecidableEq

/-- Translation of _process_files: process every input (failed items are
skipped, the loop continues), then archive every staged file.  When archive
creation fails, the except branch removes the temporary ZIP file and
re-raises, so the caller sees the error and no archive remains. -/
def _process_files (env : BatchEnv) (inputPaths : List String) : BatchResult :=
  if env.zipCreateOk then ⟨false, some (stagedFiles env inputPaths)⟩
  else ⟨true, none⟩

/-! ## Predicates and concrete instances used by the claims -/

/-- No pixel of the image is transparent: every alpha value inside the
raster is nonzero.  Images in a mode without an alpha band are fully opaque
by construction. -/
def isFullyOpaque (img : Image) : Prop :=
  ∀ x, x < img.width → ∀ y, y < img.height → img.alphaAt x y ≠ 0

/-- Every pixel of the image is fully transparent (alpha zero). -/
def isFullyTransparent (img : Image) : Prop :=
  ∀ x, x < img.width → ∀ y, y < img.height → img.alphaAt x y = 0

instance (img : Image) : Decidable (isFullyOpaque img) :=
  inferInstanceAs (Decidable (∀ x, x < img.width → ∀ y, y < img.height → img.alphaAt x y ≠ 0))

instance (img : Image) : Decidable (isFullyTransparent img) :=
  inferInstanceAs (Decidable (∀ x, x < img.width → ∀ y, y < img.height → img.alphaAt x y = 0))

/-- A one-pixel opaque RGBA image, a minimal healthy decoder output. -/
def imgDot : Image := ⟨1, 1, Mode.RGBA, fun _ _ => ⟨10, 20, 30, 255⟩, none⟩

/-- A 2 by 1 fully opaque RGB image whose left pixel is black: getbbox in a
mode without alpha keeps only the nonzero-channel region. -/
def imgBlackWhite : Image :=
  ⟨2, 1, Mode.RGB, fun x _ => if x = 0 then ⟨0, 0, 0, 255⟩ else ⟨255, 255, 255, 255⟩, none⟩

/-- A 3 by 2 fully transparent RGBA image with white color channels. -/
def imgClear : Image := ⟨3, 2, Mode.RGBA, fun _ _ => ⟨255, 255, 255, 0⟩, none⟩

/-- A 3 by 2 fully opaque RGBA image with varied colors. -/
def imgOpaque : Image := ⟨3, 2, Mode.RGBA, fun x y => ⟨40 * x, 40 * y, 0, 255⟩, none⟩

/-- An environment where every step succeeds and the capability returns its
input unchanged. -/
def envAllOk : BatchEnv := ⟨fun i => some i, fun _ => some imgDot, fun _ => true, true⟩

/-- An environment where decoding the path bad.png fails and all else
succeeds. -/
def envOneBad : BatchEnv :=
  ⟨fun i => some i, fun p => if p = "bad.png" then none else some imgDot, fun _ => true, true⟩

/-- An environment where creating the ZIP archive fails. -/
def envZipFail : BatchEnv := ⟨fun i => some i, fun _ => some imgDot, fun _ => true, false⟩

/-! ## Claims about calculate_target_size -/

/-- Claim C7: for every pair of positive integers (w, h), the pair returned
by calculate_target_size satisfies width at most 1400 and height at most
2400: the final clamp of the code guarantees the caps whatever the float
arithmetic produced. -/
theorem calculate_target_size_caps (w h w2 h2 : ℕ)
    (hres : calculate_target_size w h = some (w2, h2)) : w2 ≤ 1400 ∧ h2 ≤ 2400 := by
  simp only [calculate_target_size] at hres
  split at hres
  · exact absurd hres (by simp)
  · simp only [Option.some.injEq, Prod.mk.injEq] at hres
    obtain ⟨hw, hh⟩ := hres
    rw [← hw, ← hh]
    exact ⟨Nat.min_le_right _ _, Nat.min_le_right _ _⟩

/-- Witness for C7 at the input (1, 1). -/
theorem calculate_target_size_caps_witness : 1400 ≤ 1400 ∧ 1400 ≤ 2400 :=
  calculate_target_size_caps 1 1 1400 1400 (by decide)

/-- Claim C10: calculate_target_size fails with ZeroDivisionError (modelled
as none) exactly when a dimension is zero, so positivity of both dimensions
is necessary and sufficient for it to return a value. -/
theorem calculate_target_size_none_iff (w h : ℕ) :
    calculate_target_size w h = none ↔ w = 0 ∨ h = 0 := by
  simp only [calculate_target_size]
  split
  · next hzero => exact iff_of_true rfl hzero
  · next hpos => exact iff_of_false (by simp) hpos

/-- Claim C6: the scaling rule upscales small inputs: at (1, 1), well inside
the caps, calculate_target_size returns (1400, 1400), strictly larger than
the original in both components. -/
theorem calculate_target_size_upscales :
    ∃ w h w2 h2, w ≤ 1400 ∧ h ≤ 2400 ∧
      calculate_target_size w h = some (w2, h2) ∧ w < w2 ∧ h < h2 :=
  ⟨1, 1, 1400, 1400, by decide, by decide, by decide, by decide, by decide⟩

/-! ## Claims about the batch processor -/

/-- Claim C4: when archive creation fails, _process_files removes the
partially written archive (archive none) and re-raises the error toward the
caller (raised true). -/
theorem archive_failure_cleanup (env : BatchEnv) (inputPaths : List String)
    (hfail : env.zipCreateOk = false) :
    _process_files env inputPaths = ⟨true, none⟩ := by
  simp [_process_files, hfail]

/-- Witness for C4 on a concrete environment whose archive creation fails. -/
theorem archive_failure_cleanup_witness :
    envZipFail.zipCreateOk = false ∧ _process_files envZipFail ["a/x.png"] = ⟨true, none⟩ :=
  ⟨rfl, archive_failure_cleanup envZipFail ["a/x.png"] rfl⟩

/-- Claim C9: on the empty input list _process_files raises nothing and
returns an archive with zero entries. -/
theorem empty_batch_empty_archive (env : BatchEnv) (hzip : env.zipCreateOk = true) :
    _process_files env [] = ⟨false, some []⟩ := by
  simp [_process_files, hzip, stagedFiles, stageLoop]

/-- Witness for C9 on a concrete healthy environment. -/
theorem empty_batch_empty_archive_witness :
    envAllOk.zipCreateOk = true ∧ _process_files envAllOk [] = ⟨false, some []⟩ :=
  ⟨rfl, empty_batch_empty_archive envAllOk rfl⟩

/-! ## Claim about the single-image pipeline -/

/-- Claim C1: whenever process_image returns an image, that image sits on
the fixed 2048 by 2732 white canvas in RGB mode, whatever the input image
and whatever the background-removal capability did. -/
theorem process_image_fixed_canvas (ck : Image → Option Image) (img out : Image)
    (hres : process_image ck img = some out) :
    out.width = 2048 ∧ out.height = 2732 ∧ out.mode = Mode.RGB := by
  simp only [process_image] at hres
  split at hres
  · exact Option.noConfusion hres
  · split at hres
    · exact Option.noConfusion hres
    · injection hres with hres
      rw [← hres]
      exact ⟨rfl, rfl, rfl⟩

/-- Witness for C1: the pipeline run on a one-pixel image with an identity
capability produces exactly the fixed canvas data. -/
theorem process_image_fixed_canvas_witness :
    (process_image some imgDot).map Image.width = some 2048 ∧
    (process_image some imgDot).map Image.height = some 2732 ∧
    (process_image some imgDot).map Image.mode = some Mode.RGB := by
  have hs : (process_image some imgDot).isSome = true := by decide
  obtain ⟨out, hout⟩ := Option.isSome_iff_exists.mp hs
  obtain ⟨h1, h2, h3⟩ := process_image_fixed_canvas some imgDot out hout
  rw [hout]
  exact ⟨by simp [h1], by simp [h2], by simp [h3]⟩

/-! ## Claims about trim_transparency -/

/-- When no pixel inside the raster counts as content, getbbox finds no
bounding box. -/
theorem getbbox_none_of_noContent (img : Image)
    (hnz : ∀ x, x < img.width → ∀ y, y < img.height → img.bandNonzero x y = false) :
    img.getbbox = none := by
  have hxs : (List.range img.width).filter img.colHas = [] := by
    rw [List.filter_eq_nil_iff]
    intro x hx
    rw [List.mem_range] at hx
    simp only [Image.colHas, List.any_eq_true, List.mem_range, not_exists]
    intro y hy
    have hb := hy.2
    rw [hnz x hx y hy.1] at hb
    exact Bool.false_ne_true hb
  have hys : (List.range img.height).filter img.rowHas = [] := by
    rw [List.filter_eq_nil_iff]
    intro y hy
    rw [List.mem_range] at hy
    simp only [Image.rowHas, List.any_eq_true, List.mem_range, not_exists]
    intro x hx
    have hb := hx.2
    rw [hnz x hx.1 y hy] at hb
    exact Bool.false_ne_true hb
  unfold Image.getbbox
  rw [hxs, hys]

/-- Claim C8: trim_transparency leaves a fully transparent image unchanged:
no bounding box is found, so no crop happens. -/
theorem trim_transparent_identity (img : Image)
    (htr : isFullyTransparent img) : trim_transparency img = img := by
  obtain ⟨w, h, mo, px, ex⟩ := img
  have hnz : ∀ x, x < w → ∀ y, y < h →
      Image.bandNonzero ⟨w, h, mo, px, ex⟩ x y = false := by
    intro x hx y hy
    have ha := htr x hx y hy
    cases mo with
    | RGBA =>
      simp only [Image.alphaAt] at ha
      simp [Image.bandNonzero, ha]
    | RGB =>
      have h255 : (255 : ℕ) = 0 := ha
      exact absurd h255 (by decide)
  unfold trim_transparency
  rw [getbbox_none_of_noContent _ hnz]

/-- Witness for C8 on a concrete 3 by 2 fully transparent RGBA image whose
color channels are all white (so its channels are nonzero, only alpha is
clear). -/
theorem trim_transparent_identity_witness :
    isFullyTransparent imgClear ∧ trim_transparency imgClear = imgClear :=
  ⟨by decide, trim_transparent_identity imgClear (by decide)⟩

/-- Counterexample to claim C5 as stated: a fully opaque image need not come
back unchanged regardless of mode; in RGB mode getbbox keeps the nonzero
channel region, so a black border is cropped away.  Here a 2 by 1 opaque RGB
image with a black left pixel comes back 1 pixel wide. -/
theorem trim_opaque_counterexample :
    isFullyOpaque imgBlackWhite ∧ trim_transparency imgBlackWhite ≠ imgBlackWhite :=
  ⟨by decide, fun hEq => absurd (congrArg Image.width hEq) (by decide)⟩

/-- The last element of the enumeration of n + 1 coordinates is n. -/
theorem getLastD_range (n : ℕ) : (List.range (n + 1)).getLastD 0 = n := by
  rw [List.getLastD_eq_getLast?, List.range_succ, List.getLast?_concat]
  rfl

/-- When both filtered coordinate lists are nonempty, getbbox returns the
head and last coordinates as the box. -/
theorem getbbox_eq_of_filters (img : Image) (x0 y0 : ℕ) (xl yl : List ℕ)
    (hxs : (List.range img.width).filter img.colHas = x0 :: xl)
    (hys : (List.range img.height).filter img.rowHas = y0 :: yl) :
    img.getbbox = some (x0, y0, (x0 :: xl).getLastD 0 + 1, (y0 :: yl).getLastD 0 + 1) := by
  unfold Image.getbbox
  rw [hxs, hys]

/-- Claim C5 amended: on an image carrying an alpha band (RGBA mode), a
fully opaque image comes back from trim_transparency unchanged: every pixel
counts as content, the bounding box is the whole raster and the crop is the
identity. -/
theorem trim_opaque_rgba (img : Image) (hmode : img.mode = Mode.RGBA)
    (hop : isFullyOpaque img) : trim_transparency img = img := by
  obtain ⟨w, h, mo, px, ex⟩ := img
  cases mo with
  | RGB => exact Mode.noConfusion hmode
  | RGBA => ?_
  by_cases hw : w = 0
  · subst hw
    unfold trim_transparency
    rw [getbbox_none_of_noContent _ (by intro x hx; exact absurd hx (Nat.not_lt_zero x))]
  by_cases hh : h = 0
  · subst hh
    unfold trim_transparency
    rw [getbbox_none_of_noContent _ (by intro x hx y hy; exact absurd hy (Nat.not_lt_zero y))]
  obtain ⟨w1, rfl⟩ : ∃ w1, w = w1 + 1 :=
    ⟨w - 1, (Nat.succ_pred_eq_of_pos (Nat.pos_of_ne_zero hw)).symm⟩
  obtain ⟨h1, rfl⟩ : ∃ h1, h = h1 + 1 :=
    ⟨h - 1, (Nat.succ_pred_eq_of_pos (Nat.pos_of_ne_zero hh)).symm⟩
  have hband : ∀ x y, x < w1 + 1 → y < h1 + 1 →
      Image.bandNonzero ⟨w1 + 1, h1 + 1, Mode.RGBA, px, ex⟩ x y = true := by
    intro x y hx hy
    have ha := hop x hx y hy
    simp only [Image.alphaAt] at ha
    simp [Image.bandNonzero, ha]
  have hxs : (List.range (w1 + 1)).filter
      (Image.colHas ⟨w1 + 1, h1 + 1, Mode.RGBA, px, ex⟩) = List.range (w1 + 1) := by
    rw [List.filter_eq_self]
    intro x hx
    rw [List.mem_range] at hx
    simp only [Image.colHas, List.any_eq_true, List.mem_range]
    exact ⟨0, Nat.succ_pos h1, hband x 0 hx (Nat.succ_pos h1)⟩
  have hys : (List.range (h1 + 1)).filter
      (Image.rowHas ⟨w1 + 1, h1 + 1, Mode.RGBA, px, ex⟩) = List.range (h1 + 1) := by
    rw [List.filter_eq_self]
    intro y hy
    rw [List.mem_range] at hy
    simp only [Image.rowHas, List.any_eq_true, List.mem_range]
    exact ⟨0, Nat.succ_pos w1, hband 0 y (Nat.succ_pos w1) hy⟩
  have hxs2 : (List.range (w1 + 1)).filter
      (Image.colHas ⟨w1 + 1, h1 + 1, Mode.RGBA, px, ex⟩)
      = 0 :: List.map Nat.succ (List.range w1) := by
    rw [hxs]; exact List.range_succ_eq_map w1
  have hys2 : (List.range (h1 + 1)).filter
      (Image.rowHas ⟨w1 + 1, h1 + 1, Mode.RGBA, px, ex⟩)
      = 0 :: List.map Nat.succ (List.range h1) := by
    rw [hys]; exact List.range_succ_eq_map h1
  have hbox := getbbox_eq_of_filters _ 0 0 _ _ hxs2 hys2
  rw [← List.range_succ_eq_map w1, ← List.range_succ_eq_map h1,
    getLastD_range, getLastD_range] at hbox
  unfold trim_transparency
  rw [hbox]
  rfl

/-- Witness for the amended C5 on a concrete 3 by 2 fully opaque RGBA image
with black pixels in it (content detection uses alpha only). -/
theorem trim_opaque_rgba_witness :
    imgOpaque.mode = Mode.RGBA ∧ isFullyOpaque imgOpaque ∧
      trim_transparency imgOpaque = imgOpaque :=
  ⟨rfl, by decide, trim_opaque_rgba imgOpaque rfl (by decide)⟩

/-! ## Claim C2: batch archive contents -/

/-- Every name processOne produces has the shape stem plus the processed
suffix. -/
theorem processOne_name (env : BatchEnv) (p e : String)
    (h : processOne env p = some e) : e = pathStem p ++ "_processed.png" := by
  simp only [processOne] at h
  split at h
  · exact Option.noConfusion h
  · split at h
    · exact Option.noConfusion h
    · split at h
      · injection h with h
        exact h.symm
      · exact Option.noConfusion h

/-- The staging loop, run on success names that are pairwise distinct and
fresh for the current directory state, appends exactly those names. -/
theorem stageLoop_eq_append (env : BatchEnv) :
    ∀ (inputPaths : List String) (acc : List String),
      (inputPaths.filterMap (processOne env)).Nodup →
      (∀ n ∈ inputPaths.filterMap (processOne env), n ∉ acc) →
      stageLoop env acc inputPaths = acc ++ inputPaths.filterMap (processOne env) := by
  intro inputPaths
  induction inputPaths with
  | nil => intro acc _ _; simp [stageLoop]
  | cons p ps ih =>
    intro acc hnodup hdisj
    cases hp : processOne env p with
    | none =>
      have hfm : (p :: ps).filterMap (processOne env) = ps.filterMap (processOne env) := by
        simp [List.filterMap_cons, hp]
      rw [hfm] at hnodup hdisj
      rw [hfm]
      have hstep : stageLoop env acc (p :: ps) = stageLoop env acc ps := by
        simp only [stageLoop, List.foldl_cons, hp]
      rw [hstep]
      exact ih acc hnodup hdisj
    | some n =>
      have hfm : (p :: ps).filterMap (processOne env)
          = n :: ps.filterMap (processOne env) := by
        simp [List.filterMap_cons, hp]
      rw [hfm] at hnodup hdisj
      have hnotacc : n ∉ acc := hdisj n (List.mem_cons_self n _)
      have hstep : stageLoop env acc (p :: ps) = stageLoop env (acc ++ [n]) ps := by
        simp only [stageLoop, List.foldl_cons, hp, stageFile, if_neg hnotacc]
      rw [hstep, hfm]
      have hrest : stageLoop env (acc ++ [n]) ps
          = (acc ++ [n]) ++ ps.filterMap (processOne env) := by
        refine ih (acc ++ [n]) (List.Nodup.of_cons hnodup) ?_
        intro m hm hmem
        rcases List.mem_append.mp hmem with hmacc | hmn
        · exact hdisj m (List.mem_cons_of_mem n hm) hmacc
        · rw [List.mem_singleton] at hmn
          subst hmn
          exact (List.nodup_cons.mp hnodup).1 hm
      rw [hrest, List.append_assoc]
      rfl

/-- Successes and skipped failures partition the input list. -/
theorem length_filterMap_add_isNone {α β : Type} (f : α → Option β) (l : List α) :
    (l.filterMap f).length + (l.filter fun a => (f a).isNone).length = l.length := by
  induction l with
  | nil => rfl
  | cons a l ih =>
    cases hf : f a with
    | none =>
      simp [List.filterMap_cons, List.filter_cons, hf]
      omega
    | some b =>
      simp [List.filterMap_cons, List.filter_cons, hf]
      omega

/-- Claim C2 amended: when the successfully produced names are pairwise
distinct (no two inputs share a stem), the archive holds exactly one entry
per success, that is N minus M entries for M skipped failures out of N
inputs, each named stem_processed.png after its input; a failed item never
aborts the batch, it is skipped and every remaining item still appears. -/
theorem batch_distinct_stems (env : BatchEnv) (inputPaths entries : List String)
    (hnodup : (inputPaths.filterMap (processOne env)).Nodup)
    (hok : _process_files env inputPaths = ⟨false, some entries⟩) :
    entries.length
      = inputPaths.length - (inputPaths.filter fun p => (processOne env p).isNone).length
    ∧ ∀ e ∈ entries, ∃ p ∈ inputPaths,
        (processOne env p).isSome = true ∧ e = pathStem p ++ "_processed.png" := by
  have hent : entries = inputPaths.filterMap (processOne env) := by
    unfold _process_files at hok
    split at hok
    · simp only [BatchResult.mk.injEq, Option.some.injEq] at hok
      rw [← hok.2]
      unfold stagedFiles
      exact stageLoop_eq_append env inputPaths [] hnodup (by intro n _ hn; cases hn)
    · simp at hok
  subst hent
  constructor
  · have := length_filterMap_add_isNone (processOne env) inputPaths
    omega
  · intro e he
    obtain ⟨p, hp, hpe⟩ := List.mem_filterMap.mp he
    exact ⟨p, hp, by rw [hpe]; rfl, processOne_name env p e hpe⟩

/-- Counterexample to claim C2 as stated: two valid inputs with equal stems
both succeed (M = 0 failures out of N = 2), yet the archive holds a single
entry because the second save overwrites the first in the staging directory;
1 is not N minus M = 2. -/
theorem batch_duplicate_stems_counterexample :
    _process_files envAllOk ["a/x.png", "b/x.png"] = ⟨false, some ["x_processed.png"]⟩ ∧
    (processOne envAllOk "a/x.png").isSome = true ∧
    (processOne envAllOk "b/x.png").isSome = true ∧
    ¬ ((["x_processed.png"] : List String).length = 2 - 0) := by
  refine ⟨by decide, by decide, by decide, by decide⟩

/-- Witness for the amended C2: three inputs with distinct stems, one of
which fails to decode, produce an archive of exactly 3 - 1 entries. -/
theorem batch_distinct_stems_witness :
    (["cat_processed.png", "dog_processed.png"] : List String).length = 3 - 1 := by
  have hmain := (batch_distinct_stems envOneBad ["a/cat.png", "bad.png", "b/dog.jpg"]
    ["cat_processed.png", "dog_processed.png"] (by decide) (by decide)).1
  have hcount : (["a/cat.png", "bad.png", "b/dog.jpg"] : List String).length
      - ((["a/cat.png", "bad.png", "b/dog.jpg"] : List String).filter
          fun p => (processOne envOneBad p).isNone).length = 3 - 1 := by decide
  exact hmain.trans hcount

/-! ## Claim C3: the scaling formula and float rounding -/

/-- Counterexample to claim C3 as stated: at (79, 1) the code computes
scale = fl(1400/79) = 4988164144239473 * 2^(-48), whose product with 79
falls 33 * 2^(-48) short of 1400, more than half an ulp, so binary64
rounding returns 1399.99999999999977 and int() truncates to 1399; the exact
rational formula floor (79 * (1400/79)) gives 1400. -/
theorem calculate_target_size_float_counterexample :
    calculate_target_size 79 1 = some (1399, 17) ∧
    calcTargetSizeRat 79 1 = some (1400, 17) ∧
    calculate_target_size 79 1 ≠ calcTargetSizeRat 79 1 := by
  refine ⟨by decide, by decide, by decide⟩

set_option maxHeartbeats 1600000 in
/-- A scan of every candidate below 1401: each divisor of 1400 appears in
the explicit 24-element divisor list. -/
theorem divisors1400_complete :
    ((List.range 1401).all fun w =>
      decide (1400 % w ≠ 0) ||
      decide (w ∈ [1, 2, 4, 5, 7, 8, 10, 14, 20, 25, 28, 35, 40, 50, 56, 70,
        100, 140, 175, 200, 280, 350, 700, 1400])) = true := by decide

set_option maxHeartbeats 1600000 in
/-- A scan of every candidate below 2401: each divisor of 2400 appears in
the explicit 36-element divisor list. -/
theorem divisors2400_complete :
    ((List.range 2401).all fun h =>
      decide (2400 % h ≠ 0) ||
      decide (h ∈ [1, 2, 3, 4, 5, 6, 8, 10, 12, 15, 16, 20, 24, 25, 30, 32,
        40, 48, 50, 60, 75, 80, 96, 100, 120, 150, 160, 200, 240, 300, 400,
        480, 600, 800, 1200, 2400])) = true := by decide

set_option maxHeartbeats 1600000 in
/-- On every pair from the two divisor lists the binary64 computation of
calculate_target_size agrees with the exact rational formula. -/
theorem divisor_pairs_agree :
    (([1, 2, 4, 5, 7, 8, 10, 14, 20, 25, 28, 35, 40, 50, 56, 70,
       100, 140, 175, 200, 280, 350, 700, 1400] : List ℕ).all fun w =>
      ([1, 2, 3, 4, 5, 6, 8, 10, 12, 15, 16, 20, 24, 25, 30, 32,
        40, 48, 50, 60, 75, 80, 96, 100, 120, 150, 160, 200, 240, 300, 400,
        480, 600, 800, 1200, 2400] : List ℕ).all fun h =>
        decide (calculate_target_size w h = calcTargetSizeRat w h)) = true := by decide

/-- Each divisor of 1400 belongs to the explicit divisor list. -/
theorem mem_of_dvd_1400 (w : ℕ) (hw : w ∣ 1400) :
    w ∈ [1, 2, 4, 5, 7, 8, 10, 14, 20, 25, 28, 35, 40, 50, 56, 70,
      100, 140, 175, 200, 280, 350, 700, 1400] := by
  have hlt : w < 1401 := Nat.lt_succ_of_le (Nat.le_of_dvd (by norm_num) hw)
  have hmod : 1400 % w = 0 := Nat.dvd_iff_mod_eq_zero.mp hw
  have hball := divisors1400_complete
  simp only [List.all_eq_true, Bool.or_eq_true, decide_eq_true_eq] at hball
  rcases hball w (List.mem_range.mpr hlt) with hx | hx
  · exact absurd hmod hx
  · exact hx

/-- Each divisor of 2400 belongs to the explicit divisor list. -/
theorem mem_of_dvd_2400 (h : ℕ) (hh : h ∣ 2400) :
    h ∈ [1, 2, 3, 4, 5, 6, 8, 10, 12, 15, 16, 20, 24, 25, 30, 32,
      40, 48, 50, 60, 75, 80, 96, 100, 120, 150, 160, 200, 240, 300, 400,
      480, 600, 800, 1200, 2400] := by
  have hlt : h < 2401 := Nat.lt_succ_of_le (Nat.le_of_dvd (by norm_num) hh)
  have hmod : 2400 % h = 0 := Nat.dvd_iff_mod_eq_zero.mp hh
  have hball := divisors2400_complete
  simp only [List.all_eq_true, Bool.or_eq_true, decide_eq_true_eq] at hball
  rcases hball h (List.mem_range.mpr hlt) with hx | hx
  · exact absurd hmod hx
  · exact hx

/-- Claim C3 amended: calculate_target_size computes the scaling formula in
IEEE-754 binary64 floating-point arithmetic (the Python semantics), not
exact rational arithmetic; the two agree whenever every intermediate value
is exactly representable, in particular on every pair (w, h) with w a
divisor of 1400 and h a divisor of 2400, though not in general. -/
theorem calculate_target_size_divisor_agreement (w h : ℕ)
    (hw : w ∣ 1400) (hh : h ∣ 2400) :
    calculate_target_size w h = calcTargetSizeRat w h := by
  have hall := divisor_pairs_agree
  simp only [List.all_eq_true, decide_eq_true_eq] at hall
  exact hall w (mem_of_dvd_1400 w hw) h (mem_of_dvd_2400 h hh)

/-- Witness for the amended C3 at the divisor pair (700, 1200). -/
theorem calculate_target_size_divisor_agreement_witness :
    (700 ∣ 1400) ∧ (1200 ∣ 2400) ∧
      calculate_target_size 700 1200 = calcTargetSizeRat 700 1200 :=
  ⟨by decide, by decide,
    calculate_target_size_divisor_agreement 700 1200 (by decide) (by decide)⟩

end BgRemover
